import Mathlib

/-!
Verification of the hedge-to-LOB matching engine of the
futures-market-analysis repository: a shallow embedding of
`src/matching_engine.py` (window locator `find_closest_lob_indexes`,
matcher `match_hedges_to_lob`) and of the sort/de-duplication step of
`src/preprocess_lob.py` (`filter_and_prepare_lob_data`).

Conventions of the embedding:
* pandas timestamps are integers counting nanoseconds (`Int`); `NaT` is `none`;
* prices and quantities are rationals (`ℚ`); a `NaN` cell is `none`;
* a DataFrame is a `List` of typed rows in row order;
* the `L{n}-AskPrice` / `L{n}-AskSize` / `L{n}-BidPrice` / `L{n}-BidSize`
  columns of a snapshot are level lists `asks` / `bids` of (price, size)
  pairs for levels 1..10; an absent column is a level accessor returning
  `none` on every row, which the matching loops reject exactly as the
  column-presence check of the source (`if lob_price_col not in ...`) does;
* the `EXECTYPE` column may be absent from the hedge DataFrame as a whole
  (the EXECTYPE membership test on the row is a column-presence test, uniform
  across rows of a run); this run-level fact is the `hasExectype` flag.
-/

namespace FuturesMatching

/-- Nanoseconds in one second: `pd.Timedelta(seconds=1)` as an integer count. -/
def nsPerSec : Int := 1000000000

/-- The `1e-9` tolerance of the engine price comparisons, as a rational. -/
def eps : ℚ := 1 / 1000000000

/-- One LOB snapshot row: `lob_time` plus up to 10 (price, size) levels per
side, levels 1..10 in list order; `none` is a NaN (or absent-column) cell. -/
structure LobSnapshot where
  lob_time : Int
  asks : List (Option ℚ × Option ℚ)
  bids : List (Option ℚ × Option ℚ)
  deriving DecidableEq

/-- Column `L{lvl}-AskPrice` of a row. -/
def askPriceAt (s : LobSnapshot) (lvl : Nat) : Option ℚ :=
  (s.asks.getD (lvl - 1) (none, none)).1

/-- Column `L{lvl}-AskSize` of a row. -/
def askSizeAt (s : LobSnapshot) (lvl : Nat) : Option ℚ :=
  (s.asks.getD (lvl - 1) (none, none)).2

/-- Column `L{lvl}-BidPrice` of a row. -/
def bidPriceAt (s : LobSnapshot) (lvl : Nat) : Option ℚ :=
  (s.bids.getD (lvl - 1) (none, none)).1

/-- Column `L{lvl}-BidSize` of a row. -/
def bidSizeAt (s : LobSnapshot) (lvl : Nat) : Option ℚ :=
  (s.bids.getD (lvl - 1) (none, none)).2

/-- The side-appropriate price column: ask for SIDE = 1 (buy), bid otherwise
(the matcher only reaches this with SIDE = 1 or SIDE = 2). -/
def sidePriceAt (side : Int) (s : LobSnapshot) (lvl : Nat) : Option ℚ :=
  if side = 1 then askPriceAt s lvl else bidPriceAt s lvl

/-- The side-appropriate size column. -/
def sideSizeAt (side : Int) (s : LobSnapshot) (lvl : Nat) : Option ℚ :=
  if side = 1 then askSizeAt s lvl else bidSizeAt s lvl

/-- One row of the cleaned hedge DataFrame (`df_h_cleaned_sorted`). -/
structure HedgeEvent where
  CLORDID : Int
  SIDE : Int
  EXECTYPE : Option Int
  CUMQTY : Option ℚ
  EXEC_PRICE : Option ℚ
  hedge_time : Option Int
  deriving DecidableEq

/-- Embeds searchsorted with side left on a sorted integer column:
the number of entries strictly below `v`, i.e. the first insertion point. -/
def searchsortedLeft (l : List Int) (v : Int) : Nat :=
  match l with
  | [] => 0
  | x :: xs => if x < v then searchsortedLeft xs v + 1 else 0

/-- Embeds searchsorted with side right on a sorted integer column:
the number of entries at most `v`, i.e. the last insertion point. -/
def searchsortedRight (l : List Int) (v : Int) : Nat :=
  match l with
  | [] => 0
  | x :: xs => if x ≤ v then searchsortedRight xs v + 1 else 0

/-- The body of `find_closest_lob_indexes` after the event row is fetched:
NaT hedge time or an empty LOB frame yields the `(-1, -1)` sentinel, else the
two `searchsorted` calls on `lob_time` with the asymmetric bounds
`hedge_time - 1s` and `hedge_time + threshold`. -/
def windowBounds (snaps : List LobSnapshot) (ht : Option Int) (tThresholdNs : Int) : Int × Int :=
  match ht with
  | none => (-1, -1)
  | some t =>
    if snaps = [] then (-1, -1)
    else ((searchsortedLeft (snaps.map LobSnapshot.lob_time) (t - nsPerSec) : Nat),
          (searchsortedRight (snaps.map LobSnapshot.lob_time) (t + tThresholdNs) : Nat))

/-- Embeds `find_closest_lob_indexes`: out-of-bounds
`irow`, NaT hedge time and empty LOB frame all return `(-1, -1)`. -/
def find_closest_lob_indexes (df_h : List HedgeEvent) (snaps : List LobSnapshot)
    (irow : Nat) (tThresholdNs : Int) : Int × Int :=
  if h : irow < df_h.length then
    windowBounds snaps (df_h.get ⟨irow, h⟩).hedge_time tThresholdNs
  else (-1, -1)

/-- Start index of the `iloc[start:end]` slice taken by the matcher. -/
def windowStart (snaps : List LobSnapshot) (ht : Option Int) (tThresholdNs : Int) : Nat :=
  (windowBounds snaps ht tThresholdNs).1.toNat

/-- The slice `lob_window_df`, i.e. `df_o.iloc[lob_start_idx:lob_end_idx]`,
empty when the matcher guard (start equal to -1, or start at least end) fires. -/
def candidateWindow (snaps : List LobSnapshot) (ht : Option Int) (tThresholdNs : Int) :
    List LobSnapshot :=
  if (windowBounds snaps ht tThresholdNs).1 = -1 ∨
      (windowBounds snaps ht tThresholdNs).2 ≤ (windowBounds snaps ht tThresholdNs).1 then []
  else
    (snaps.drop (windowBounds snaps ht tThresholdNs).1.toNat).take
      ((windowBounds snaps ht tThresholdNs).2.toNat - (windowBounds snaps ht tThresholdNs).1.toNat)

/-- The exact-pass row test (lines 111-115): a row is accepted iff its level
price is a number within `1e-9` of the execution price **and** its level size
is a number at least the fill size; a NaN price or size rejects the row. -/
def exactAccept (px f : ℚ) (pr sz : Option ℚ) : Bool :=
  match pr, sz with
  | some p, some s => decide (|p - px| < eps) && decide (f ≤ s)
  | _, _ => false

/-- The fuzzy-pass row test (lines 144-149): tolerance `tick_size + 1e-9`. -/
def fuzzyAccept (tick px f : ℚ) (pr sz : Option ℚ) : Bool :=
  match pr, sz with
  | some p, some s => decide (|p - px| ≤ tick + eps) && decide (f ≤ s)
  | _, _ => false

/-- The inner `for ... in lob_window_df.iterrows()` loop: first row (in window
order, i.e. chronological order) satisfying `p`, with its window index. -/
def findFirstIdx (p : LobSnapshot → Bool) : List LobSnapshot → Option (Nat × LobSnapshot)
  | [] => none
  | s :: rest =>
    if p s then some (0, s)
    else
      match findFirstIdx p rest with
      | some (i, r) => some (i + 1, r)
      | none => none

/-- The outer `for lob_level_num in range(1, 11)` loop over a list of level
numbers: first level whose row scan succeeds, with the result of that scan. -/
def searchLevelList (acceptAt : Nat → LobSnapshot → Bool) (window : List LobSnapshot) :
    List Nat → Option (Nat × Nat × LobSnapshot)
  | [] => none
  | lvl :: rest =>
    match findFirstIdx (acceptAt lvl) window with
    | some (i, s) => some (lvl, i, s)
    | none => searchLevelList acceptAt window rest

/-- Computes `ord_size_this_fill` (lines 85-90): the delta of `CUMQTY` against
the immediately preceding row when it shares `CLORDID` (a NaN operand makes
the delta NaN = `none`), else the own `CUMQTY` of the row when positive,
else 0. -/
def fallbackFillSize (e : HedgeEvent) : Option ℚ :=
  match e.CUMQTY with
  | some c => if 0 < c then some c else some 0
  | none => some 0

/-- See `fallbackFillSize`; `prev` is the row at `irow - 1` (`none` at row 0). -/
def fillSizeOf (prev : Option HedgeEvent) (e : HedgeEvent) : Option ℚ :=
  match prev with
  | some p =>
    if e.CLORDID = p.CLORDID then
      match e.CUMQTY, p.CUMQTY with
      | some c, some q => some (c - q)
      | _, _ => none
    else fallbackFillSize e
  | none => fallbackFillSize e

/-- Modelled from the spec: its wording of the fill-size derivation, for the
refinement statement of claim C5: previous event with the same order id gives
the cumulative-quantity delta, otherwise the own cumulative quantity of the event
(`none` = undefined). -/
def specFillSize (prev : Option HedgeEvent) (e : HedgeEvent) : Option ℚ :=
  match prev with
  | some p =>
    if e.CLORDID = p.CLORDID then
      match e.CUMQTY, p.CUMQTY with
      | some c, some q => some (c - q)
      | _, _ => none
    else e.CUMQTY
  | none => e.CUMQTY

/-- Pass 1 (lines 102-132): level-major loop over levels 1..10, row-major scan
of the window per level, with the exact acceptance test. -/
def exactSearch (side : Int) (px f : ℚ) (window : List LobSnapshot) :
    Option (Nat × Nat × LobSnapshot) :=
  searchLevelList
    (fun lvl s => exactAccept px f (sidePriceAt side s lvl) (sideSizeAt side s lvl))
    window (List.range' 1 10)

/-- Pass 2 (lines 134-168): the identical traversal restarted from level 1,
with the tick-tolerant acceptance test. -/
def fuzzySearch (side : Int) (tick px f : ℚ) (window : List LobSnapshot) :
    Option (Nat × Nat × LobSnapshot) :=
  searchLevelList
    (fun lvl s => fuzzyAccept tick px f (sidePriceAt side s lvl) (sideSizeAt side s lvl))
    window (List.range' 1 10)

/-- Values of `match_type` stored in the match record. -/
inductive MatchType where
  | exact
  | fuzzy
  deriving DecidableEq

/-- The dict appended to `matched_data_list` (lines 117-126 / 151-162);
`matched_lob_price_at_level` is only set on the fuzzy path. -/
structure MatchRecord where
  row : LobSnapshot
  original_lob_index : Nat
  matched_hedge_clordid : Int
  matched_hedge_exec_price : ℚ
  matched_lob_price_at_level : Option ℚ
  matched_hedge_side : Int
  matched_hedge_exectype : Option Int
  matched_hedge_time : Option Int
  matched_hedge_this_fill_size : ℚ
  matched_lob_level_interacted : Int
  match_type : MatchType
  deriving DecidableEq

/-- Terminal outcome of one iteration of the matcher event loop, in the
order the `continue` statements of the source occur. -/
inductive Outcome where
  | notFill
  | noWindow
  | badSide
  | badFillSize
  | noExecPrice
  | unmatched
  | matched (r : MatchRecord)
  deriving DecidableEq

/-- One iteration of the `for irow in range(len(df_h_cleaned_sorted))` loop of
`match_hedges_to_lob` (lines 58-176). The guards appear in source order:
fill-type filter, window validity, side dispatch, fill size, execution price,
then the exact pass followed, only on failure, by the fuzzy pass. -/
def processEvent (hasExectype : Bool) (snaps : List LobSnapshot) (tThresholdNs : Int)
    (tick : ℚ) (prev : Option HedgeEvent) (e : HedgeEvent) : Outcome :=
  if hasExectype = true ∧ ¬(e.EXECTYPE = some 1 ∨ e.EXECTYPE = some 2) then Outcome.notFill
  else if (windowBounds snaps e.hedge_time tThresholdNs).1 = -1 ∨
      (windowBounds snaps e.hedge_time tThresholdNs).2 ≤
        (windowBounds snaps e.hedge_time tThresholdNs).1 then Outcome.noWindow
  else if e.SIDE = 1 ∨ e.SIDE = 2 then
    match fillSizeOf prev e with
    | none => Outcome.badFillSize
    | some f =>
      if f ≤ 0 then Outcome.badFillSize
      else
        match e.EXEC_PRICE with
        | none => Outcome.noExecPrice
        | some px =>
          match exactSearch e.SIDE px f (candidateWindow snaps e.hedge_time tThresholdNs) with
          | some (lvl, i, srow) =>
            Outcome.matched
              ⟨srow, windowStart snaps e.hedge_time tThresholdNs + i, e.CLORDID, px, none,
                e.SIDE, if hasExectype then e.EXECTYPE else none, e.hedge_time, f,
                (if e.SIDE = 1 then 1 else -1) * (lvl : Int), MatchType.exact⟩
          | none =>
            match fuzzySearch e.SIDE tick px f (candidateWindow snaps e.hedge_time tThresholdNs) with
            | some (lvl, i, srow) =>
              Outcome.matched
                ⟨srow, windowStart snaps e.hedge_time tThresholdNs + i, e.CLORDID, px,
                  sidePriceAt e.SIDE srow lvl, e.SIDE,
                  if hasExectype then e.EXECTYPE else none, e.hedge_time, f,
                  (if e.SIDE = 1 then 1 else -1) * (lvl : Int), MatchType.fuzzy⟩
            | none => Outcome.unmatched
  else Outcome.badSide

/-- The record an outcome contributes to `matched_data_list`, if any. -/
def recordOf : Outcome → Option MatchRecord
  | Outcome.matched r => some r
  | _ => none

/-- Did the outcome bump `num_exact_price_matches`? -/
def isExactMatch : Outcome → Bool
  | Outcome.matched r => decide (r.match_type = MatchType.exact)
  | _ => false

/-- Did the outcome bump `num_fuzzy_price_matches`? -/
def isFuzzyMatch : Outcome → Bool
  | Outcome.matched r => decide (r.match_type = MatchType.fuzzy)
  | _ => false

/-- The event loop: every row is visited once, carrying the previous row
(`df_h_cleaned_sorted.iloc[irow - 1]`) for the fill-size derivation. -/
def runOutcomes (hasExectype : Bool) (snaps : List LobSnapshot) (tThresholdNs : Int)
    (tick : ℚ) : Option HedgeEvent → List HedgeEvent → List Outcome
  | _, [] => []
  | prev, e :: rest =>
    processEvent hasExectype snaps tThresholdNs tick prev e ::
      runOutcomes hasExectype snaps tThresholdNs tick (some e) rest

/-- The previous-row value after a list of events has been consumed. -/
def lastPrev (prev : Option HedgeEvent) : List HedgeEvent → Option HedgeEvent
  | [] => prev
  | e :: rest => lastPrev (some e) rest

/-- The matcher outputs: the matched rows plus the three counters it
accumulates (lines 53-56, 65, 173-176). -/
structure RunResult where
  records : List MatchRecord
  num_input_hedge_fill_events : Nat
  num_exact_price_matches : Nat
  num_fuzzy_price_matches : Nat
  deriving DecidableEq

/-- Embeds `match_hedges_to_lob`: an empty hedge or LOB frame returns the empty
result immediately (lines 46-51); otherwise the loop runs over every row. -/
def match_hedges_to_lob (hasExectype : Bool) (df_h : List HedgeEvent)
    (snaps : List LobSnapshot) (tThresholdNs : Int) (tick : ℚ) : RunResult :=
  if df_h = [] ∨ snaps = [] then ⟨[], 0, 0, 0⟩
  else
    ⟨(runOutcomes hasExectype snaps tThresholdNs tick none df_h).filterMap recordOf,
     ((runOutcomes hasExectype snaps tThresholdNs tick none df_h).filter
        (fun o => decide (o ≠ Outcome.notFill))).length,
     ((runOutcomes hasExectype snaps tThresholdNs tick none df_h).filter isExactMatch).length,
     ((runOutcomes hasExectype snaps tThresholdNs tick none df_h).filter isFuzzyMatch).length⟩

/-- The figures of the `--- Matching Engine Report ---` block. -/
structure MatchingReport where
  attempted : Nat
  matchedTotal : Nat
  exactMatches : Nat
  fuzzyMatches : Nat
  matchRate : Option ℚ
  deriving DecidableEq

/-- Lines 178-197: with no matched rows the function prints only a no-matches
note and returns early, reporting nothing; otherwise it reports the counters,
and the percentage line is printed only when `num_input_hedge_fill_events`
is positive. -/
def runReport (hasExectype : Bool) (df_h : List HedgeEvent) (snaps : List LobSnapshot)
    (tThresholdNs : Int) (tick : ℚ) : Option MatchingReport :=
  if (match_hedges_to_lob hasExectype df_h snaps tThresholdNs tick).records = [] then none
  else
    some
      ⟨(match_hedges_to_lob hasExectype df_h snaps tThresholdNs tick).num_input_hedge_fill_events,
       (match_hedges_to_lob hasExectype df_h snaps tThresholdNs tick).records.length,
       (match_hedges_to_lob hasExectype df_h snaps tThresholdNs tick).num_exact_price_matches,
       (match_hedges_to_lob hasExectype df_h snaps tThresholdNs tick).num_fuzzy_price_matches,
       if 0 < (match_hedges_to_lob hasExectype df_h snaps tThresholdNs tick).num_input_hedge_fill_events then
         some (((match_hedges_to_lob hasExectype df_h snaps tThresholdNs tick).records.length : ℚ) /
           ((match_hedges_to_lob hasExectype df_h snaps tThresholdNs tick).num_input_hedge_fill_events : ℚ) * 100)
       else none⟩

/-- The level number a record refers to (`matched_lob_level_interacted` is
`sign * level` with sign `+1` for ask, `-1` for bid). -/
def recordLevel (r : MatchRecord) : Nat := r.matched_lob_level_interacted.natAbs

/-- The price cell of the level the record references. -/
def recordLevelPrice (r : MatchRecord) : Option ℚ :=
  sidePriceAt r.matched_hedge_side r.row (recordLevel r)

/-- The size cell of the level the record references. -/
def recordLevelSize (r : MatchRecord) : Option ℚ :=
  sideSizeAt r.matched_hedge_side r.row (recordLevel r)

/-- Row order used by the sort on the `lob_time` column. -/
def timeLe (a b : LobSnapshot) : Prop := a.lob_time ≤ b.lob_time

instance : DecidableRel timeLe :=
  fun a b => inferInstanceAs (Decidable (a.lob_time ≤ b.lob_time))

instance : IsTotal LobSnapshot timeLe := ⟨fun a b => Int.le_total a.lob_time b.lob_time⟩

instance : IsTrans LobSnapshot timeLe := ⟨fun _ _ _ h1 h2 => le_trans h1 h2⟩

/-- Embeds the pandas sort of `df_o` on the `lob_time` column. -/
def sortByTime (l : List LobSnapshot) : List LobSnapshot := List.insertionSort timeLe l

/-- pandas `Series.is_monotonic_increasing`: non-strict comparison of each
consecutive pair. -/
def isMonotonicIncreasing : List LobSnapshot → Bool
  | [] => true
  | [_] => true
  | a :: b :: rest => decide (a.lob_time ≤ b.lob_time) && isMonotonicIncreasing (b :: rest)

/-- Embeds drop_duplicates on the `lob_time` column, keeping first. -/
def dropDuplicatesByTime : List Int → List LobSnapshot → List LobSnapshot
  | _, [] => []
  | seen, x :: xs =>
    if x.lob_time ∈ seen then dropDuplicatesByTime seen xs
    else x :: dropDuplicatesByTime (x.lob_time :: seen) xs

/-- Lines 81-98 of `preprocess_lob.py`: sort by `lob_time`; only if the sorted
column fails the (non-strict) monotonic check, drop duplicate timestamps
keeping the first occurrence; only if it still fails, sort once more. The RIC
filter and time normalization upstream of these lines are identity on the
fields modelled here. -/
def filter_and_prepare_lob_data (rows : List LobSnapshot) : List LobSnapshot :=
  if isMonotonicIncreasing (sortByTime rows) then sortByTime rows
  else if isMonotonicIncreasing (dropDuplicatesByTime [] (sortByTime rows)) then
    dropDuplicatesByTime [] (sortByTime rows)
  else sortByTime (dropDuplicatesByTime [] (sortByTime rows))

/-! Concrete sample rows used to evaluate the definitions at explicit inputs. -/

/-- Snapshot at t = 1s: best ask 100 x 5, best bid 99 x 5. -/
def snapA : LobSnapshot :=
  { lob_time := 1000000000, asks := [(some 100, some 5)], bids := [(some 99, some 5)] }

/-- Snapshot at t = 2s: best ask 102 x 10, best bid 99 x 5. -/
def snapB : LobSnapshot :=
  { lob_time := 2000000000, asks := [(some 102, some 10)], bids := [(some 99, some 5)] }

/-- A buy fill (SIDE 1, EXECTYPE 1) of cumulative quantity 5 at price 100. -/
def evBuy : HedgeEvent :=
  { CLORDID := 7, SIDE := 1, EXECTYPE := some 1, CUMQTY := some 5,
    EXEC_PRICE := some 100, hedge_time := some 1500000000 }

/-- Like `evBuy` but at price 101, one tick above the best ask. -/
def evFuzzy : HedgeEvent := { evBuy with EXEC_PRICE := some 101 }

/-- Like `evBuy` but EXECTYPE 4 (a cancel): not a fill. -/
def evCancel : HedgeEvent := { evBuy with EXECTYPE := some 4 }

/-- Like `evBuy` but with no EXECTYPE value. -/
def evNoType : HedgeEvent := { evBuy with EXECTYPE := none }

/-- Like `evBuy` but at price 500: no level matches, exactly or fuzzily. -/
def evNoMatch : HedgeEvent := { evBuy with EXEC_PRICE := some 500 }

/-- An earlier fill of the same order with cumulative quantity 2. -/
def evPrev : HedgeEvent := { evBuy with CUMQTY := some 2 }

/-- Like `evBuy` but with cumulative quantity 0: fill size never positive. -/
def evZero : HedgeEvent := { evBuy with CUMQTY := some 0 }

/-- Like `evBuy` but with a NaT timestamp. -/
def evNaT : HedgeEvent := { evBuy with hedge_time := none }

/-- A fill at t = 2s used to exercise the window boundaries. -/
def evBoundary : HedgeEvent := { evBuy with hedge_time := some 2000000000 }

/-- The record the engine emits for `evBuy` against `[snapA, snapB]`. -/
def recExact : MatchRecord :=
  ⟨snapA, 0, 7, 100, none, 1, some 1, some 1500000000, 5, 1, MatchType.exact⟩

/-- The record the engine emits for `evFuzzy` against `[snapA, snapB]` with
tick size 1. -/
def recFuzzy : MatchRecord :=
  ⟨snapA, 0, 7, 101, some 100, 1, some 1, some 1500000000, 5, 1, MatchType.fuzzy⟩

/-- The record the engine emits for `evBuy` preceded by `evPrev`. -/
def recDelta : MatchRecord :=
  ⟨snapA, 0, 7, 100, none, 1, some 1, some 1500000000, 3, 1, MatchType.exact⟩

/-- Two rows sharing `lob_time` = 5 but differing elsewhere. -/
def rowD1 : LobSnapshot := { lob_time := 5, asks := [(some 1, some 1)], bids := [] }

/-- See `rowD1`. -/
def rowD2 : LobSnapshot := { lob_time := 5, asks := [(some 2, some 2)], bids := [] }

/-! Properties of the two binary searches of the window locator. -/

theorem searchsortedLeft_le_iff :
    ∀ {l : List Int}, l.Pairwise (· ≤ ·) → ∀ (v : Int) {i : Nat} (hi : i < l.length),
      (searchsortedLeft l v ≤ i ↔ v ≤ l.get ⟨i, hi⟩)
  | [], _, v, i, hi => by simp at hi
  | x :: xs, hs, v, i, hi => by
    rw [List.pairwise_cons] at hs
    by_cases hx : x < v
    · simp only [searchsortedLeft, if_pos hx]
      cases i with
      | zero => exact iff_of_false (by omega) (not_le.mpr hx)
      | succ j =>
        rw [Nat.succ_le_succ_iff]
        exact searchsortedLeft_le_iff hs.2 v (Nat.lt_of_succ_lt_succ hi)
    · simp only [searchsortedLeft, if_neg hx]
      cases i with
      | zero => exact iff_of_true (Nat.zero_le 0) (not_lt.mp hx)
      | succ j =>
        refine iff_of_true (Nat.zero_le _) ?_
        have hx2 : x ≤ xs.get ⟨j, Nat.lt_of_succ_lt_succ hi⟩ :=
          hs.1 _ (xs.get_mem _ _)
        exact le_trans (not_lt.mp hx) hx2

theorem searchsortedRight_le_iff :
    ∀ {l : List Int}, l.Pairwise (· ≤ ·) → ∀ (v : Int) {i : Nat} (hi : i < l.length),
      (searchsortedRight l v ≤ i ↔ v < l.get ⟨i, hi⟩)
  | [], _, v, i, hi => by simp at hi
  | x :: xs, hs, v, i, hi => by
    rw [List.pairwise_cons] at hs
    by_cases hx : x ≤ v
    · simp only [searchsortedRight, if_pos hx]
      cases i with
      | zero => exact iff_of_false (by omega) (not_lt.mpr hx)
      | succ j =>
        rw [Nat.succ_le_succ_iff]
        exact searchsortedRight_le_iff hs.2 v (Nat.lt_of_succ_lt_succ hi)
    · simp only [searchsortedRight, if_neg hx]
      cases i with
      | zero => exact iff_of_true (Nat.zero_le 0) (not_le.mp hx)
      | succ j =>
        refine iff_of_true (Nat.zero_le _) ?_
        have hx2 : x ≤ xs.get ⟨j, Nat.lt_of_succ_lt_succ hi⟩ :=
          hs.1 _ (xs.get_mem _ _)
        exact lt_of_lt_of_le (not_le.mp hx) hx2

/-- C3: for a fill event with a defined timestamp and a non-empty snapshot
sequence sorted ascending by timestamp, the locator start index is the least
index with `timestamp ≥ event_time − 1s` and its `end` is the least index
with `timestamp > event_time + T`: position `i` lies in `[start, end)`
exactly when its timestamp lies in the closed interval
`[event_time − 1s, event_time + T]`, so both boundary timestamps are
included and anything strictly outside is excluded. -/
theorem c3_window_boundaries (df_h : List HedgeEvent) (snaps : List LobSnapshot)
    (irow : Nat) (tThresholdNs : Int) (hirow : irow < df_h.length) (t : Int)
    (ht : (df_h.get ⟨irow, hirow⟩).hedge_time = some t) (hne : snaps ≠ [])
    (hs : (snaps.map LobSnapshot.lob_time).Pairwise (· ≤ ·)) :
    0 ≤ (find_closest_lob_indexes df_h snaps irow tThresholdNs).1 ∧
    0 ≤ (find_closest_lob_indexes df_h snaps irow tThresholdNs).2 ∧
    ∀ i (hi : i < snaps.length),
      ((find_closest_lob_indexes df_h snaps irow tThresholdNs).1 ≤ (i : Int) ↔
        t - nsPerSec ≤ (snaps.get ⟨i, hi⟩).lob_time) ∧
      (((i : Int) < (find_closest_lob_indexes df_h snaps irow tThresholdNs).2) ↔
        (snaps.get ⟨i, hi⟩).lob_time ≤ t + tThresholdNs) := by
  have hfc : find_closest_lob_indexes df_h snaps irow tThresholdNs =
      (((searchsortedLeft (snaps.map LobSnapshot.lob_time) (t - nsPerSec) : Nat) : Int),
       ((searchsortedRight (snaps.map LobSnapshot.lob_time) (t + tThresholdNs) : Nat) : Int)) := by
    rw [find_closest_lob_indexes, dif_pos hirow, ht]
    simp only [windowBounds, if_neg hne]
  refine ⟨by rw [hfc]; exact Int.natCast_nonneg _, by rw [hfc]; exact Int.natCast_nonneg _, ?_⟩
  intro i hi
  have hi2 : i < (snaps.map LobSnapshot.lob_time).length := by simpa using hi
  have h1 := searchsortedLeft_le_iff hs (t - nsPerSec) hi2
  have h2 := searchsortedRight_le_iff hs (t + tThresholdNs) hi2
  have hm : (snaps.map LobSnapshot.lob_time).get ⟨i, hi2⟩ = (snaps.get ⟨i, hi⟩).lob_time := by
    simp
  rw [hm] at h1 h2
  constructor
  · rw [hfc]
    dsimp only
    constructor
    · intro hle
      exact h1.mp (by exact_mod_cast hle)
    · intro hge
      exact_mod_cast h1.mpr hge
  · rw [hfc]
    dsimp only
    constructor
    · intro hlt
      by_contra hgt
      push_neg at hgt
      have hbi : searchsortedRight (snaps.map LobSnapshot.lob_time) (t + tThresholdNs) ≤ i :=
        h2.mpr hgt
      have : i < searchsortedRight (snaps.map LobSnapshot.lob_time) (t + tThresholdNs) := by
        exact_mod_cast hlt
      omega
    · intro hle
      have hni : ¬ searchsortedRight (snaps.map LobSnapshot.lob_time) (t + tThresholdNs) ≤ i :=
        fun hb => absurd (h2.mp hb) (not_lt.mpr hle)
      have : i < searchsortedRight (snaps.map LobSnapshot.lob_time) (t + tThresholdNs) := by omega
      exact_mod_cast this

/-- Witness for C3 at a concrete input: event at t = 2s, threshold 1s, so the
snapshot at exactly t − 1s is included (start = 0). -/
theorem c3_window_boundaries_witness :
    0 ≤ (find_closest_lob_indexes [evBoundary] [snapA, snapB] 0 nsPerSec).1 ∧
    ((find_closest_lob_indexes [evBoundary] [snapA, snapB] 0 nsPerSec).1 ≤ (0 : Int) ↔
      (2000000000 : Int) - nsPerSec ≤ (([snapA, snapB] : List LobSnapshot).get ⟨0, by decide⟩).lob_time) := by
  have h := c3_window_boundaries [evBoundary] [snapA, snapB] 0 nsPerSec (by decide) 2000000000
    (by decide) (by decide) (by decide)
  exact ⟨h.1, (h.2.2 0 (by decide)).1⟩

/-! Properties of the level-major, then time-major search loops. -/

theorem findFirstIdx_eq_some {p : LobSnapshot → Bool} {l : List LobSnapshot} {i : Nat}
    {s : LobSnapshot} (h : findFirstIdx p l = some (i, s)) :
    ∃ hi : i < l.length, l.get ⟨i, hi⟩ = s ∧ p s = true ∧
      ∀ j (hj : j < l.length), j < i → p (l.get ⟨j, hj⟩) = false := by
  induction l generalizing i with
  | nil => simp [findFirstIdx] at h
  | cons x xs ih =>
    simp only [findFirstIdx] at h
    split at h
    next hx =>
      simp only [Option.some.injEq, Prod.mk.injEq] at h
      obtain ⟨rfl, rfl⟩ := h
      exact ⟨Nat.succ_pos _, rfl, hx, fun j hj hji => absurd hji (Nat.not_lt_zero j)⟩
    next hx =>
      split at h
      next i2 r hfx =>
        simp only [Option.some.injEq, Prod.mk.injEq] at h
        obtain ⟨rfl, rfl⟩ := h
        obtain ⟨hi2, hget, hp, hbefore⟩ := ih hfx
        refine ⟨Nat.succ_lt_succ hi2, by simpa using hget, hp, ?_⟩
        intro j hj hji
        cases j with
        | zero => simpa using hx
        | succ j2 =>
          simpa using hbefore j2 (Nat.lt_of_succ_lt_succ hj) (Nat.lt_of_succ_lt_succ hji)
      next hfx => exact Option.noConfusion h

theorem findFirstIdx_eq_none {p : LobSnapshot → Bool} :
    ∀ {l : List LobSnapshot}, findFirstIdx p l = none ↔ ∀ s ∈ l, p s = false := by
  intro l
  induction l with
  | nil => simp [findFirstIdx]
  | cons x xs ih =>
    by_cases hx : p x
    · simp [findFirstIdx, hx]
    · cases hfx : findFirstIdx p xs with
      | some v => simp [findFirstIdx, hx, hfx, ← ih]
      | none => simp [findFirstIdx, hx, hfx, ← ih]

theorem searchLevelList_range'_some {acceptAt : Nat → LobSnapshot → Bool}
    {window : List LobSnapshot} :
    ∀ {a n lvl i : Nat} {srow : LobSnapshot},
      searchLevelList acceptAt window (List.range' a n) = some (lvl, i, srow) →
      a ≤ lvl ∧ lvl < a + n ∧ findFirstIdx (acceptAt lvl) window = some (i, srow) ∧
        ∀ l2, a ≤ l2 → l2 < lvl → findFirstIdx (acceptAt l2) window = none := by
  intro a n
  induction n generalizing a with
  | zero => intro lvl i srow h; simp [searchLevelList] at h
  | succ m ih =>
    intro lvl i srow h
    rw [List.range'_succ] at h
    simp only [searchLevelList] at h
    split at h
    next j r hfx =>
      simp only [Option.some.injEq, Prod.mk.injEq] at h
      obtain ⟨rfl, rfl, rfl⟩ := h
      exact ⟨le_refl _, by omega, hfx,
        fun l2 hl2 hl22 => absurd (lt_of_le_of_lt hl2 hl22) (lt_irrefl _)⟩
    next hfx =>
      obtain ⟨h1, h2, h3, h4⟩ := ih h
      refine ⟨by omega, by omega, h3, ?_⟩
      intro l2 hl2 hl22
      rcases Nat.eq_or_lt_of_le hl2 with rfl | hlt
      · exact hfx
      · exact h4 l2 hlt hl22

theorem searchLevelList_range'_none {acceptAt : Nat → LobSnapshot → Bool}
    {window : List LobSnapshot} :
    ∀ {a n : Nat}, searchLevelList acceptAt window (List.range' a n) = none →
      ∀ l2, a ≤ l2 → l2 < a + n → ∀ s ∈ window, acceptAt l2 s = false := by
  intro a n
  induction n generalizing a with
  | zero => intro h l2 hl2 hl22; exact absurd hl22 (by omega)
  | succ m ih =>
    intro h l2 hl2 hl22
    rw [List.range'_succ] at h
    simp only [searchLevelList] at h
    split at h
    next j r hfx => exact Option.noConfusion h
    next hfx =>
      rcases Nat.eq_or_lt_of_le hl2 with rfl | hlt
      · exact fun s hsmem => findFirstIdx_eq_none.mp hfx s hsmem
      · exact ih h l2 hlt (by omega)

/-- Unpacking a successful exact acceptance. -/
theorem exactAccept_true {px f : ℚ} {pr sz : Option ℚ} (h : exactAccept px f pr sz = true) :
    ∃ p s, pr = some p ∧ sz = some s ∧ |p - px| < eps ∧ f ≤ s := by
  cases pr with
  | none => simp [exactAccept] at h
  | some p =>
    cases sz with
    | none => simp [exactAccept] at h
    | some s =>
      simp only [exactAccept, Bool.and_eq_true, decide_eq_true_eq] at h
      exact ⟨p, s, rfl, rfl, h.1, h.2⟩

/-- Unpacking a successful fuzzy acceptance. -/
theorem fuzzyAccept_true {tick px f : ℚ} {pr sz : Option ℚ}
    (h : fuzzyAccept tick px f pr sz = true) :
    ∃ p s, pr = some p ∧ sz = some s ∧ |p - px| ≤ tick + eps ∧ f ≤ s := by
  cases pr with
  | none => simp [fuzzyAccept] at h
  | some p =>
    cases sz with
    | none => simp [fuzzyAccept] at h
    | some s =>
      simp only [fuzzyAccept, Bool.and_eq_true, decide_eq_true_eq] at h
      exact ⟨p, s, rfl, rfl, h.1, h.2⟩

/-- A NaN price or size cell never passes either acceptance test. -/
theorem accept_none_false (tick px f : ℚ) (pr sz : Option ℚ) (h : pr = none ∨ sz = none) :
    exactAccept px f pr sz = false ∧ fuzzyAccept tick px f pr sz = false := by
  rcases h with rfl | rfl
  · exact ⟨rfl, rfl⟩
  · cases pr <;> exact ⟨rfl, rfl⟩

/-- Evaluation form of `windowBounds` on a non-empty snapshot list. -/
theorem windowBounds_some_cons (s : LobSnapshot) (rest : List LobSnapshot) (t : Int) (T : Int) :
    windowBounds (s :: rest) (some t) T =
      (((searchsortedLeft ((s :: rest).map LobSnapshot.lob_time) (t - nsPerSec) : Nat) : Int),
       ((searchsortedRight ((s :: rest).map LobSnapshot.lob_time) (t + T) : Nat) : Int)) := by
  simp [windowBounds]

/-- Evaluation form of `match_hedges_to_lob` on non-empty inputs. -/
theorem match_hedges_to_lob_cons (hasExectype : Bool) (e : HedgeEvent) (df : List HedgeEvent)
    (s : LobSnapshot) (ss : List LobSnapshot) (T : Int) (tick : ℚ) :
    match_hedges_to_lob hasExectype (e :: df) (s :: ss) T tick =
      ⟨(runOutcomes hasExectype (s :: ss) T tick none (e :: df)).filterMap recordOf,
       ((runOutcomes hasExectype (s :: ss) T tick none (e :: df)).filter
          (fun o => decide (o ≠ Outcome.notFill))).length,
       ((runOutcomes hasExectype (s :: ss) T tick none (e :: df)).filter isExactMatch).length,
       ((runOutcomes hasExectype (s :: ss) T tick none (e :: df)).filter isFuzzyMatch).length⟩ := by
  simp [match_hedges_to_lob]

/-! Inversion principles for one iteration of the matcher event loop. -/

theorem processEvent_eq_notFill_iff (hasExectype : Bool) (snaps : List LobSnapshot)
    (tThresholdNs : Int) (tick : ℚ) (prev : Option HedgeEvent) (e : HedgeEvent) :
    processEvent hasExectype snaps tThresholdNs tick prev e = Outcome.notFill ↔
      (hasExectype = true ∧ ¬(e.EXECTYPE = some 1 ∨ e.EXECTYPE = some 2)) := by
  constructor
  · intro h
    by_contra hg
    unfold processEvent at h
    rw [if_neg hg] at h
    split at h
    · exact Outcome.noConfusion h
    split at h
    · split at h
      next heq => exact Outcome.noConfusion h
      next f heq =>
        split at h
        · exact Outcome.noConfusion h
        split at h
        next hpe => exact Outcome.noConfusion h
        next px hpe =>
          split at h
          next lvl i srow hse => exact Outcome.noConfusion h
          next hse =>
            split at h
            next lvl i srow hsf => exact Outcome.noConfusion h
            next hsf => exact Outcome.noConfusion h
    · exact Outcome.noConfusion h
  · intro hg
    unfold processEvent
    rw [if_pos hg]

theorem processEvent_matched_exact_inv {hasExectype : Bool} {snaps : List LobSnapshot}
    {tThresholdNs : Int} {tick : ℚ} {prev : Option HedgeEvent} {e : HedgeEvent}
    {r : MatchRecord}
    (h : processEvent hasExectype snaps tThresholdNs tick prev e = Outcome.matched r)
    (hx : r.match_type = MatchType.exact) :
    ∃ f px lvl i srow,
      fillSizeOf prev e = some f ∧ ¬ f ≤ 0 ∧ e.EXEC_PRICE = some px ∧
      (e.SIDE = 1 ∨ e.SIDE = 2) ∧
      exactSearch e.SIDE px f (candidateWindow snaps e.hedge_time tThresholdNs) =
        some (lvl, i, srow) ∧
      r = ⟨srow, windowStart snaps e.hedge_time tThresholdNs + i, e.CLORDID, px, none,
            e.SIDE, if hasExectype then e.EXECTYPE else none, e.hedge_time, f,
            (if e.SIDE = 1 then 1 else -1) * (lvl : Int), MatchType.exact⟩ := by
  unfold processEvent at h
  split at h
  · exact Outcome.noConfusion h
  split at h
  · exact Outcome.noConfusion h
  split at h
  next hside =>
    split at h
    next heq => exact Outcome.noConfusion h
    next f heq =>
      split at h
      · exact Outcome.noConfusion h
      next hnle =>
        split at h
        next hpe => exact Outcome.noConfusion h
        next px hpe =>
          split at h
          next lvl i srow hse =>
            injection h with h2
            exact ⟨f, px, lvl, i, srow, heq, hnle, hpe, hside, hse, h2.symm⟩
          next hse =>
            split at h
            next lvl i srow hsf =>
              injection h with h2
              rw [← h2] at hx
              exact absurd hx (by simp)
            next hsf => exact Outcome.noConfusion h
  next hside => exact Outcome.noConfusion h

theorem processEvent_matched_fuzzy_inv {hasExectype : Bool} {snaps : List LobSnapshot}
    {tThresholdNs : Int} {tick : ℚ} {prev : Option HedgeEvent} {e : HedgeEvent}
    {r : MatchRecord}
    (h : processEvent hasExectype snaps tThresholdNs tick prev e = Outcome.matched r)
    (hx : r.match_type = MatchType.fuzzy) :
    ∃ f px lvl i srow,
      fillSizeOf prev e = some f ∧ ¬ f ≤ 0 ∧ e.EXEC_PRICE = some px ∧
      (e.SIDE = 1 ∨ e.SIDE = 2) ∧
      exactSearch e.SIDE px f (candidateWindow snaps e.hedge_time tThresholdNs) = none ∧
      fuzzySearch e.SIDE tick px f (candidateWindow snaps e.hedge_time tThresholdNs) =
        some (lvl, i, srow) ∧
      r = ⟨srow, windowStart snaps e.hedge_time tThresholdNs + i, e.CLORDID, px,
            sidePriceAt e.SIDE srow lvl, e.SIDE,
            if hasExectype then e.EXECTYPE else none, e.hedge_time, f,
            (if e.SIDE = 1 then 1 else -1) * (lvl : Int), MatchType.fuzzy⟩ := by
  unfold processEvent at h
  split at h
  · exact Outcome.noConfusion h
  split at h
  · exact Outcome.noConfusion h
  split at h
  next hside =>
    split at h
    next heq => exact Outcome.noConfusion h
    next f heq =>
      split at h
      · exact Outcome.noConfusion h
      next hnle =>
        split at h
        next hpe => exact Outcome.noConfusion h
        next px hpe =>
          split at h
          next lvl i srow hse =>
            injection h with h2
            rw [← h2] at hx
            exact absurd hx (by simp)
          next hse =>
            split at h
            next lvl i srow hsf =>
              injection h with h2
              exact ⟨f, px, lvl, i, srow, heq, hnle, hpe, hside, hse, hsf, h2.symm⟩
            next hsf => exact Outcome.noConfusion h
  next hside => exact Outcome.noConfusion h

theorem processEvent_matched_fillSize {hasExectype : Bool} {snaps : List LobSnapshot}
    {tThresholdNs : Int} {tick : ℚ} {prev : Option HedgeEvent} {e : HedgeEvent}
    {r : MatchRecord}
    (h : processEvent hasExectype snaps tThresholdNs tick prev e = Outcome.matched r) :
    ∃ f, fillSizeOf prev e = some f ∧ ¬ f ≤ 0 ∧ r.matched_hedge_this_fill_size = f := by
  unfold processEvent at h
  split at h
  · exact Outcome.noConfusion h
  split at h
  · exact Outcome.noConfusion h
  split at h
  next hside =>
    split at h
    next heq => exact Outcome.noConfusion h
    next f heq =>
      split at h
      · exact Outcome.noConfusion h
      next hnle =>
        split at h
        next hpe => exact Outcome.noConfusion h
        next px hpe =>
          refine ⟨f, heq, hnle, ?_⟩
          split at h
          next lvl i srow hse =>
            injection h with h2
            rw [← h2]
          next hse =>
            split at h
            next lvl i srow hsf =>
              injection h with h2
              rw [← h2]
            next hsf => exact Outcome.noConfusion h
  next hside => exact Outcome.noConfusion h

theorem processEvent_badFill {hasExectype : Bool} {snaps : List LobSnapshot}
    {tThresholdNs : Int} {tick : ℚ} {prev : Option HedgeEvent} {e : HedgeEvent}
    (hf : fillSizeOf prev e = none ∨ ∃ w, fillSizeOf prev e = some w ∧ w ≤ 0) :
    ∀ r, processEvent hasExectype snaps tThresholdNs tick prev e ≠ Outcome.matched r := by
  intro r h
  obtain ⟨f, hf2, hnle, _⟩ := processEvent_matched_fillSize h
  rcases hf with hf | ⟨w, hw, hwle⟩
  · rw [hf2] at hf
    exact Option.noConfusion hf
  · rw [hf2] at hw
    injection hw with hw2
    exact hnle (hw2 ▸ hwle)

/-! Properties of the event loop and its counters. -/

theorem recordOf_eq_some {o : Outcome} {r : MatchRecord} (h : recordOf o = some r) :
    o = Outcome.matched r := by
  cases o <;> simp_all [recordOf]

theorem mem_runOutcomes {hasExectype : Bool} {snaps : List LobSnapshot} {tThresholdNs : Int}
    {tick : ℚ} {o : Outcome} :
    ∀ {prev : Option HedgeEvent} {l : List HedgeEvent},
      o ∈ runOutcomes hasExectype snaps tThresholdNs tick prev l →
      ∃ p e, o = processEvent hasExectype snaps tThresholdNs tick p e := by
  intro prev l
  induction l generalizing prev with
  | nil => intro h; simp [runOutcomes] at h
  | cons e rest ih =>
    intro h
    simp only [runOutcomes, List.mem_cons] at h
    rcases h with h | h
    · exact ⟨prev, e, h⟩
    · exact ih h

theorem mem_records_inv {hasExectype : Bool} {df_h : List HedgeEvent}
    {snaps : List LobSnapshot} {tThresholdNs : Int} {tick : ℚ} {r : MatchRecord}
    (h : r ∈ (match_hedges_to_lob hasExectype df_h snaps tThresholdNs tick).records) :
    ∃ p e, processEvent hasExectype snaps tThresholdNs tick p e = Outcome.matched r := by
  unfold match_hedges_to_lob at h
  split at h
  · simp at h
  · simp only [List.mem_filterMap] at h
    obtain ⟨o, ho, hro⟩ := h
    obtain ⟨p, e, rfl⟩ := mem_runOutcomes ho
    exact ⟨p, e, recordOf_eq_some hro⟩

theorem runOutcomes_append (hasExectype : Bool) (snaps : List LobSnapshot)
    (tThresholdNs : Int) (tick : ℚ) :
    ∀ (xs ys : List HedgeEvent) (prev : Option HedgeEvent),
      runOutcomes hasExectype snaps tThresholdNs tick prev (xs ++ ys) =
        runOutcomes hasExectype snaps tThresholdNs tick prev xs ++
          runOutcomes hasExectype snaps tThresholdNs tick (lastPrev prev xs) ys := by
  intro xs
  induction xs with
  | nil => intro ys prev; simp [runOutcomes, lastPrev]
  | cons e rest ih =>
    intro ys prev
    simp [List.cons_append, runOutcomes, lastPrev, ih]

theorem runOutcomes_attempted (hasExectype : Bool) (snaps : List LobSnapshot)
    (tThresholdNs : Int) (tick : ℚ) :
    ∀ (l : List HedgeEvent) (prev : Option HedgeEvent),
      ((runOutcomes hasExectype snaps tThresholdNs tick prev l).filter
        (fun o => decide (o ≠ Outcome.notFill))).length =
      (l.filter (fun e =>
        decide (hasExectype = false ∨ e.EXECTYPE = some 1 ∨ e.EXECTYPE = some 2))).length := by
  intro l
  induction l with
  | nil => intro prev; rfl
  | cons e rest ih =>
    intro prev
    simp only [runOutcomes, List.filter_cons]
    by_cases hp : processEvent hasExectype snaps tThresholdNs tick prev e = Outcome.notFill
    · have hg := (processEvent_eq_notFill_iff hasExectype snaps tThresholdNs tick prev e).mp hp
      have hP : ¬(hasExectype = false ∨ e.EXECTYPE = some 1 ∨ e.EXECTYPE = some 2) := by
        intro hor
        rcases hor with hor | hor | hor
        · rw [hg.1] at hor; exact Bool.noConfusion hor
        · exact hg.2 (Or.inl hor)
        · exact hg.2 (Or.inr hor)
      rw [if_neg (by simp [hp]), if_neg (by simpa using hP)]
      exact ih (some e)
    · have hP : hasExectype = false ∨ e.EXECTYPE = some 1 ∨ e.EXECTYPE = some 2 := by
        by_contra hor
        push_neg at hor
        obtain ⟨h1, h2, h3⟩ := hor
        have : hasExectype = true := by
          cases hasExectype
          · exact absurd rfl h1
          · rfl
        exact hp ((processEvent_eq_notFill_iff hasExectype snaps tThresholdNs tick prev e).mpr
          ⟨this, fun hc => hc.elim h2 h3⟩)
      rw [if_pos (by simpa using hp), if_pos (by simpa using hP)]
      simp only [List.length_cons]
      rw [ih (some e)]

theorem attempted_pos_of_records_ne {hasExectype : Bool} {df_h : List HedgeEvent}
    {snaps : List LobSnapshot} {tThresholdNs : Int} {tick : ℚ}
    (h : (match_hedges_to_lob hasExectype df_h snaps tThresholdNs tick).records ≠ []) :
    0 < (match_hedges_to_lob hasExectype df_h snaps tThresholdNs tick).num_input_hedge_fill_events := by
  by_cases hc : df_h = [] ∨ snaps = []
  · exact absurd (by simp [match_hedges_to_lob, hc]) h
  · simp only [match_hedges_to_lob, if_neg hc] at h ⊢
    obtain ⟨r, hr⟩ := List.exists_mem_of_ne_nil _ h
    obtain ⟨o, ho, hro⟩ := List.mem_filterMap.mp hr
    have ho2 := recordOf_eq_some hro
    have hmem : o ∈ (runOutcomes hasExectype snaps tThresholdNs tick none df_h).filter
        (fun o => decide (o ≠ Outcome.notFill)) := by
      rw [List.mem_filter]
      exact ⟨ho, by simp [ho2]⟩
    exact List.length_pos.mpr (List.ne_nil_of_mem hmem)

/-! The fill-size derivation against the formula of the specification. -/

theorem fallbackFillSize_eq_cumqty {e : HedgeEvent} {f : ℚ}
    (hf : fallbackFillSize e = some f) (hpos : 0 < f) : e.CUMQTY = some f := by
  unfold fallbackFillSize at hf
  split at hf
  next c hc =>
    split at hf
    · rw [hc]; exact hf
    · injection hf with hf2
      rw [← hf2] at hpos
      exact absurd hpos (lt_irrefl 0)
  next hc =>
    injection hf with hf2
    rw [← hf2] at hpos
    exact absurd hpos (lt_irrefl 0)

theorem specFillSize_of_fillSizeOf {prev : Option HedgeEvent} {e : HedgeEvent} {f : ℚ}
    (hf : fillSizeOf prev e = some f) (hpos : 0 < f) : specFillSize prev e = some f := by
  cases prev with
  | none =>
    have : fallbackFillSize e = some f := hf
    exact fallbackFillSize_eq_cumqty this hpos
  | some p =>
    by_cases hid : e.CLORDID = p.CLORDID
    · simp only [fillSizeOf, if_pos hid] at hf
      simp only [specFillSize, if_pos hid]
      exact hf
    · simp only [fillSizeOf, if_neg hid] at hf
      simp only [specFillSize, if_neg hid]
      exact fallbackFillSize_eq_cumqty hf hpos

theorem fallbackFillSize_of_cumqty_bad {e : HedgeEvent}
    (h : e.CUMQTY = none ∨ ∃ v, e.CUMQTY = some v ∧ v ≤ 0) :
    ∃ w, fallbackFillSize e = some w ∧ w ≤ 0 := by
  rcases h with h | ⟨v, hv, hvle⟩
  · exact ⟨0, by simp [fallbackFillSize, h], le_refl 0⟩
  · exact ⟨0, by simp [fallbackFillSize, hv, if_neg (not_lt.mpr hvle)], le_refl 0⟩

theorem fillSizeOf_of_specBad {prev : Option HedgeEvent} {e : HedgeEvent}
    (h : specFillSize prev e = none ∨ ∃ v, specFillSize prev e = some v ∧ v ≤ 0) :
    fillSizeOf prev e = none ∨ ∃ w, fillSizeOf prev e = some w ∧ w ≤ 0 := by
  cases prev with
  | none =>
    have hce : specFillSize none e = e.CUMQTY := rfl
    rw [hce] at h
    right
    have : fillSizeOf none e = fallbackFillSize e := rfl
    rw [this]
    exact fallbackFillSize_of_cumqty_bad h
  | some p =>
    by_cases hid : e.CLORDID = p.CLORDID
    · rcases h with h | ⟨v, hv, hvle⟩
      · left
        simp only [specFillSize, if_pos hid] at h
        simp only [fillSizeOf, if_pos hid]
        exact h
      · right
        refine ⟨v, ?_, hvle⟩
        simp only [specFillSize, if_pos hid] at hv
        simp only [fillSizeOf, if_pos hid]
        exact hv
    · right
      simp only [fillSizeOf, if_neg hid]
      simp only [specFillSize, if_neg hid] at h
      exact fallbackFillSize_of_cumqty_bad h

/-! The claims about the two matching passes. -/

/-- C1: when the engine emits an exact match record for a fill event, the
record is produced by the level-major (levels 1 through 10, ascending), then
time-major (window storage order) traversal under the acceptance test
`|level_price − execution_price| < 1e-9 ∧ level_size ≥ fill_size`, stopping
at the first acceptance: the recorded level is the lowest qualifying level
and the recorded row is the earliest qualifying row of the window at that
level. -/
theorem c1_exact_pass_order (hasExectype : Bool) (snaps : List LobSnapshot)
    (tThresholdNs : Int) (tick : ℚ) (prev : Option HedgeEvent) (e : HedgeEvent)
    (r : MatchRecord) (px f : ℚ)
    (h : processEvent hasExectype snaps tThresholdNs tick prev e = Outcome.matched r)
    (hx : r.match_type = MatchType.exact)
    (hpx : e.EXEC_PRICE = some px) (hf : fillSizeOf prev e = some f) :
    ∃ (lvl i : Nat), 1 ≤ lvl ∧ lvl ≤ 10 ∧
      ∃ hi : i < (candidateWindow snaps e.hedge_time tThresholdNs).length,
        r.row = (candidateWindow snaps e.hedge_time tThresholdNs).get ⟨i, hi⟩ ∧
        r.original_lob_index = windowStart snaps e.hedge_time tThresholdNs + i ∧
        r.matched_lob_level_interacted = (if e.SIDE = 1 then 1 else -1) * (lvl : Int) ∧
        r.matched_hedge_this_fill_size = f ∧
        exactAccept px f (sidePriceAt e.SIDE r.row lvl) (sideSizeAt e.SIDE r.row lvl) = true ∧
        (∀ lvl2 : Nat, 1 ≤ lvl2 → lvl2 < lvl →
          ∀ s ∈ candidateWindow snaps e.hedge_time tThresholdNs,
            exactAccept px f (sidePriceAt e.SIDE s lvl2) (sideSizeAt e.SIDE s lvl2) = false) ∧
        (∀ j (hj : j < (candidateWindow snaps e.hedge_time tThresholdNs).length), j < i →
          exactAccept px f
            (sidePriceAt e.SIDE ((candidateWindow snaps e.hedge_time tThresholdNs).get ⟨j, hj⟩) lvl)
            (sideSizeAt e.SIDE ((candidateWindow snaps e.hedge_time tThresholdNs).get ⟨j, hj⟩) lvl)
            = false) := by
  obtain ⟨f2, px2, lvl, i, srow, hf2, hnle, hpx2, hside, hse, hrec⟩ :=
    processEvent_matched_exact_inv h hx
  rw [hf] at hf2
  injection hf2 with hff
  rw [hpx] at hpx2
  injection hpx2 with hpp
  subst hff
  subst hpp
  unfold exactSearch at hse
  obtain ⟨h1, h2, hfirst, hlevels⟩ := searchLevelList_range'_some hse
  obtain ⟨hi, hget, hacc, hbefore⟩ := findFirstIdx_eq_some hfirst
  subst hrec
  refine ⟨lvl, i, h1, by omega, hi, hget.symm, rfl, rfl, rfl, hacc, ?_, ?_⟩
  · intro lvl2 hl1 hl2 s hsmem
    exact findFirstIdx_eq_none.mp (hlevels lvl2 hl1 hl2) s hsmem
  · intro j hj hji
    exact hbefore j hj hji

/-- Witness for C1: `evBuy` against `[snapA, snapB]` yields the exact record
`recExact` at level 1, window row 0. -/
theorem c1_exact_pass_order_witness :
    ∃ (lvl i : Nat), 1 ≤ lvl ∧ lvl ≤ 10 ∧
      ∃ hi : i < (candidateWindow [snapA, snapB] evBuy.hedge_time nsPerSec).length,
        recExact.row = (candidateWindow [snapA, snapB] evBuy.hedge_time nsPerSec).get ⟨i, hi⟩ ∧
        recExact.original_lob_index = windowStart [snapA, snapB] evBuy.hedge_time nsPerSec + i ∧
        recExact.matched_lob_level_interacted = (if evBuy.SIDE = 1 then 1 else -1) * (lvl : Int) ∧
        recExact.matched_hedge_this_fill_size = 5 ∧
        exactAccept 100 5 (sidePriceAt evBuy.SIDE recExact.row lvl)
          (sideSizeAt evBuy.SIDE recExact.row lvl) = true ∧
        (∀ lvl2 : Nat, 1 ≤ lvl2 → lvl2 < lvl →
          ∀ s ∈ candidateWindow [snapA, snapB] evBuy.hedge_time nsPerSec,
            exactAccept 100 5 (sidePriceAt evBuy.SIDE s lvl2) (sideSizeAt evBuy.SIDE s lvl2)
              = false) ∧
        (∀ j (hj : j < (candidateWindow [snapA, snapB] evBuy.hedge_time nsPerSec).length), j < i →
          exactAccept 100 5
            (sidePriceAt evBuy.SIDE
              ((candidateWindow [snapA, snapB] evBuy.hedge_time nsPerSec).get ⟨j, hj⟩) lvl)
            (sideSizeAt evBuy.SIDE
              ((candidateWindow [snapA, snapB] evBuy.hedge_time nsPerSec).get ⟨j, hj⟩) lvl)
            = false) :=
  c1_exact_pass_order true [snapA, snapB] nsPerSec 1 none evBuy recExact 100 5
    (by norm_num [match_hedges_to_lob_cons, runOutcomes, recordOf, processEvent,
      windowBounds_some_cons, searchsortedLeft, searchsortedRight, candidateWindow, windowStart,
      exactSearch, fuzzySearch, searchLevelList, findFirstIdx, exactAccept, fuzzyAccept,
      sidePriceAt, sideSizeAt, askPriceAt, askSizeAt, bidPriceAt, bidSizeAt, fillSizeOf,
      fallbackFillSize, evBuy, evFuzzy, evPrev, snapA, snapB, recExact, recFuzzy, recDelta,
      eps, nsPerSec, List.range'])
    (by decide) (by decide) (by decide)

/-- C2: a fuzzy match record is only emitted when the exact pass found no
candidate: no level 1..10 and no window row satisfies the exact acceptance
test for that fill. -/
theorem c2_exact_first (hasExectype : Bool) (snaps : List LobSnapshot) (tThresholdNs : Int)
    (tick : ℚ) (prev : Option HedgeEvent) (e : HedgeEvent) (r : MatchRecord) (px f : ℚ)
    (h : processEvent hasExectype snaps tThresholdNs tick prev e = Outcome.matched r)
    (hx : r.match_type = MatchType.fuzzy)
    (hpx : e.EXEC_PRICE = some px) (hf : fillSizeOf prev e = some f) :
    ∀ lvl : Nat, 1 ≤ lvl → lvl ≤ 10 →
      ∀ s ∈ candidateWindow snaps e.hedge_time tThresholdNs,
        exactAccept px f (sidePriceAt e.SIDE s lvl) (sideSizeAt e.SIDE s lvl) = false := by
  obtain ⟨f2, px2, lvl, i, srow, hf2, hnle, hpx2, hside, hse, hsf, hrec⟩ :=
    processEvent_matched_fuzzy_inv h hx
  rw [hf] at hf2
  injection hf2 with hff
  rw [hpx] at hpx2
  injection hpx2 with hpp
  subst hff
  subst hpp
  unfold exactSearch at hse
  intro lvl2 hl1 hl2 s hsmem
  exact searchLevelList_range'_none hse lvl2 hl1 (by omega) s hsmem

/-- Witness for C2: the fuzzy match of `evFuzzy` implies no exact acceptance
anywhere in its window, e.g. at level 1 on `snapA`. -/
theorem c2_exact_first_witness :
    exactAccept 101 5 (sidePriceAt evFuzzy.SIDE snapA 1)
      (sideSizeAt evFuzzy.SIDE snapA 1) = false :=
  c2_exact_first true [snapA, snapB] nsPerSec 1 none evFuzzy recFuzzy 101 5
    (by norm_num [match_hedges_to_lob_cons, runOutcomes, recordOf, processEvent,
      windowBounds_some_cons, searchsortedLeft, searchsortedRight, candidateWindow, windowStart,
      exactSearch, fuzzySearch, searchLevelList, findFirstIdx, exactAccept, fuzzyAccept,
      sidePriceAt, sideSizeAt, askPriceAt, askSizeAt, bidPriceAt, bidSizeAt, fillSizeOf,
      fallbackFillSize, evBuy, evFuzzy, evPrev, snapA, snapB, recExact, recFuzzy, recDelta,
      eps, nsPerSec, List.range'])
    (by decide) (by decide) (by decide) 1 (by decide) (by decide) snapA (by decide)

/-- C4: every emitted record, exact or fuzzy, references a level whose price
and size cells are present, with size at least the matched fill size; and a
row with a missing price or size cell never passes either acceptance test
(it is excluded, not treated as zero). -/
theorem c4_size_sufficiency (hasExectype : Bool) (df_h : List HedgeEvent)
    (snaps : List LobSnapshot) (tThresholdNs : Int) (tick : ℚ) :
    (∀ r ∈ (match_hedges_to_lob hasExectype df_h snaps tThresholdNs tick).records,
       ∃ p s, recordLevelPrice r = some p ∧ recordLevelSize r = some s ∧
         r.matched_hedge_this_fill_size ≤ s) ∧
    (∀ px f : ℚ, ∀ pr sz : Option ℚ, pr = none ∨ sz = none →
       exactAccept px f pr sz = false ∧ fuzzyAccept tick px f pr sz = false) := by
  refine ⟨?_, fun px f pr sz hh => accept_none_false tick px f pr sz hh⟩
  intro r hr
  obtain ⟨p0, e0, hpe⟩ := mem_records_inv hr
  rcases hmt : r.match_type with _ | _
  · obtain ⟨f, px, lvl, i, srow, hf, hnle, hpx, hside, hse, hrec⟩ :=
      processEvent_matched_exact_inv hpe hmt
    unfold exactSearch at hse
    obtain ⟨h1, h2, hfirst, _⟩ := searchLevelList_range'_some hse
    obtain ⟨hi, hget, hacc, _⟩ := findFirstIdx_eq_some hfirst
    obtain ⟨pp, ss, hpr, hsz, _, hfs⟩ := exactAccept_true hacc
    subst hrec
    have hlvl : ((if e0.SIDE = 1 then (1 : Int) else -1) * (lvl : Int)).natAbs = lvl := by
      by_cases hs1 : e0.SIDE = 1 <;> simp [hs1]
    refine ⟨pp, ss, ?_, ?_, hfs⟩
    · unfold recordLevelPrice recordLevel
      dsimp only
      rw [hlvl]
      exact hpr
    · unfold recordLevelSize recordLevel
      dsimp only
      rw [hlvl]
      exact hsz
  · obtain ⟨f, px, lvl, i, srow, hf, hnle, hpx, hside, hse, hsf, hrec⟩ :=
      processEvent_matched_fuzzy_inv hpe hmt
    unfold fuzzySearch at hsf
    obtain ⟨h1, h2, hfirst, _⟩ := searchLevelList_range'_some hsf
    obtain ⟨hi, hget, hacc, _⟩ := findFirstIdx_eq_some hfirst
    obtain ⟨pp, ss, hpr, hsz, _, hfs⟩ := fuzzyAccept_true hacc
    subst hrec
    have hlvl : ((if e0.SIDE = 1 then (1 : Int) else -1) * (lvl : Int)).natAbs = lvl := by
      by_cases hs1 : e0.SIDE = 1 <;> simp [hs1]
    refine ⟨pp, ss, ?_, ?_, hfs⟩
    · unfold recordLevelPrice recordLevel
      dsimp only
      rw [hlvl]
      exact hpr
    · unfold recordLevelSize recordLevel
      dsimp only
      rw [hlvl]
      exact hsz

/-- Witness for C4 at a concrete run with one exact match. -/
theorem c4_size_sufficiency_witness :
    ∃ p s, recordLevelPrice recExact = some p ∧ recordLevelSize recExact = some s ∧
      recExact.matched_hedge_this_fill_size ≤ s :=
  (c4_size_sufficiency true [evBuy] [snapA, snapB] nsPerSec 1).1 recExact
    (by norm_num [match_hedges_to_lob_cons, runOutcomes, recordOf, processEvent,
      windowBounds_some_cons, searchsortedLeft, searchsortedRight, candidateWindow, windowStart,
      exactSearch, fuzzySearch, searchLevelList, findFirstIdx, exactAccept, fuzzyAccept,
      sidePriceAt, sideSizeAt, askPriceAt, askSizeAt, bidPriceAt, bidSizeAt, fillSizeOf,
      fallbackFillSize, evBuy, evFuzzy, evPrev, snapA, snapB, recExact, recFuzzy, recDelta,
      eps, nsPerSec, List.range'])

/-- C5: the fill size carried by any emitted record is exactly the
derived fill size of the specification (cumulative-quantity delta under a
shared order id, else the own cumulative quantity of the event), positive; an
event whose derived fill size is non-positive or undefined never produces a
match record. -/
theorem c5_fill_size (hasExectype : Bool) (snaps : List LobSnapshot) (tThresholdNs : Int)
    (tick : ℚ) (prev : Option HedgeEvent) (e : HedgeEvent) :
    (∀ r, processEvent hasExectype snaps tThresholdNs tick prev e = Outcome.matched r →
       specFillSize prev e = some r.matched_hedge_this_fill_size ∧
       0 < r.matched_hedge_this_fill_size) ∧
    (∀ v, specFillSize prev e = some v → v ≤ 0 →
       ∀ r, processEvent hasExectype snaps tThresholdNs tick prev e ≠ Outcome.matched r) ∧
    (specFillSize prev e = none →
       ∀ r, processEvent hasExectype snaps tThresholdNs tick prev e ≠ Outcome.matched r) := by
  refine ⟨?_, ?_, ?_⟩
  · intro r h
    obtain ⟨f, hf, hnle, hrf⟩ := processEvent_matched_fillSize h
    have hpos : 0 < f := not_le.mp hnle
    rw [hrf]
    exact ⟨specFillSize_of_fillSizeOf hf hpos, hpos⟩
  · intro v hv hvle
    exact processEvent_badFill (fillSizeOf_of_specBad (Or.inr ⟨v, hv, hvle⟩))
  · intro hnone
    exact processEvent_badFill (fillSizeOf_of_specBad (Or.inl hnone))

/-- Witness for C5: the second fill of order 7 (cumulative 2 then 5) carries
fill size 3 = 5 − 2, and an event with cumulative quantity 0 never matches. -/
theorem c5_fill_size_witness :
    specFillSize (some evPrev) evBuy = some recDelta.matched_hedge_this_fill_size ∧
    0 < recDelta.matched_hedge_this_fill_size ∧
    processEvent true [snapA, snapB] nsPerSec 1 none evZero ≠ Outcome.matched recExact := by
  have h1 := (c5_fill_size true [snapA, snapB] nsPerSec 1 (some evPrev) evBuy).1
    recDelta (by norm_num [match_hedges_to_lob_cons, runOutcomes, recordOf, processEvent,
      windowBounds_some_cons, searchsortedLeft, searchsortedRight, candidateWindow, windowStart,
      exactSearch, fuzzySearch, searchLevelList, findFirstIdx, exactAccept, fuzzyAccept,
      sidePriceAt, sideSizeAt, askPriceAt, askSizeAt, bidPriceAt, bidSizeAt, fillSizeOf,
      fallbackFillSize, evBuy, evFuzzy, evPrev, snapA, snapB, recExact, recFuzzy, recDelta,
      eps, nsPerSec, List.range'])
  have h2 := (c5_fill_size true [snapA, snapB] nsPerSec 1 none evZero).2.1
    0 (by decide) (by decide) recExact
  exact ⟨h1.1, h1.2, h2⟩

/-! The claims about pre-filters, locator errors, reporting and preparation. -/

/-- C6 (amended): when the hedge DataFrame carries the EXECTYPE column, an
event whose EXECTYPE denotes neither a partial fill (1) nor a final fill (2)
is dispatched by the first guard — uniformly in the snapshot sequence, hence
before any window lookup — to the skipped outcome and contributes no record;
but when the column is absent, the fill-type guard filters nothing and every
event is a matching candidate. -/
theorem c6_fill_type_filter :
    (∀ (snaps : List LobSnapshot) (tThresholdNs : Int) (tick : ℚ)
       (prev : Option HedgeEvent) (e : HedgeEvent),
       ¬(e.EXECTYPE = some 1 ∨ e.EXECTYPE = some 2) →
       processEvent true snaps tThresholdNs tick prev e = Outcome.notFill) ∧
    (∀ (snaps : List LobSnapshot) (tThresholdNs : Int) (tick : ℚ)
       (prev : Option HedgeEvent) (e : HedgeEvent),
       processEvent false snaps tThresholdNs tick prev e ≠ Outcome.notFill) := by
  constructor
  · intro snaps T tick prev e hne
    exact (processEvent_eq_notFill_iff true snaps T tick prev e).mpr ⟨rfl, hne⟩
  · intro snaps T tick prev e h
    have hg := (processEvent_eq_notFill_iff false snaps T tick prev e).mp h
    exact Bool.noConfusion hg.1

/-- Counterexample to C6 as stated: an event carrying no event_type value —
one whose event_type denotes neither a partial nor a final fill — is not
skipped when the EXECTYPE column is absent from the run, and it produces a
match record. -/
theorem c6_counterexample :
    ¬(evNoType.EXECTYPE = some 1 ∨ evNoType.EXECTYPE = some 2) ∧
    processEvent false [snapA, snapB] nsPerSec 1 none evNoType ≠ Outcome.notFill ∧
    (match_hedges_to_lob false [evNoType] [snapA, snapB] nsPerSec 1).records ≠ [] := by
  refine ⟨by decide, ?_, ?_⟩
  · norm_num [match_hedges_to_lob_cons, runOutcomes, recordOf, processEvent,
      windowBounds_some_cons, searchsortedLeft, searchsortedRight, candidateWindow, windowStart,
      exactSearch, fuzzySearch, searchLevelList, findFirstIdx, exactAccept, fuzzyAccept,
      sidePriceAt, sideSizeAt, askPriceAt, askSizeAt, bidPriceAt, bidSizeAt, fillSizeOf,
      fallbackFillSize, evNoType, evBuy, snapA, snapB, eps, nsPerSec, List.range']
    all_goals decide
  · norm_num [match_hedges_to_lob_cons, runOutcomes, recordOf, processEvent,
      windowBounds_some_cons, searchsortedLeft, searchsortedRight, candidateWindow, windowStart,
      exactSearch, fuzzySearch, searchLevelList, findFirstIdx, exactAccept, fuzzyAccept,
      sidePriceAt, sideSizeAt, askPriceAt, askSizeAt, bidPriceAt, bidSizeAt, fillSizeOf,
      fallbackFillSize, evNoType, evBuy, snapA, snapB, eps, nsPerSec, List.range']
    all_goals decide

/-- Witness for the amended C6: a cancel event (EXECTYPE 4) is skipped when
the column is present and not skipped by the fill-type guard when absent. -/
theorem c6_fill_type_filter_witness :
    processEvent true [snapA] nsPerSec 1 none evCancel = Outcome.notFill ∧
    processEvent false [snapA] nsPerSec 1 none evCancel ≠ Outcome.notFill :=
  ⟨c6_fill_type_filter.1 [snapA] nsPerSec 1 none evCancel (by decide),
   c6_fill_type_filter.2 [snapA] nsPerSec 1 none evCancel⟩

/-- C7: an empty snapshot sequence or a NaT event timestamp makes the locator
return the `(-1, -1)` error sentinel, never an arbitrary index range; the
affected event contributes no match record, and the event loop still
processes every preceding and following event exactly as it otherwise would:
no locator error aborts the run. -/
theorem c7_locator_errors (hasExectype : Bool) (snaps : List LobSnapshot) (tThresholdNs : Int)
    (tick : ℚ) (df_h : List HedgeEvent) (irow : Nat) (hirow : irow < df_h.length)
    (prev : Option HedgeEvent) (pre post : List HedgeEvent) (e : HedgeEvent)
    (ht : e.hedge_time = none) :
    ((df_h.get ⟨irow, hirow⟩).hedge_time = none →
       find_closest_lob_indexes df_h snaps irow tThresholdNs = (-1, -1)) ∧
    (snaps = [] → find_closest_lob_indexes df_h snaps irow tThresholdNs = (-1, -1)) ∧
    recordOf (processEvent hasExectype snaps tThresholdNs tick prev e) = none ∧
    runOutcomes hasExectype snaps tThresholdNs tick prev (pre ++ e :: post) =
      runOutcomes hasExectype snaps tThresholdNs tick prev pre ++
        processEvent hasExectype snaps tThresholdNs tick (lastPrev prev pre) e ::
          runOutcomes hasExectype snaps tThresholdNs tick (some e) post := by
  refine ⟨?_, ?_, ?_, ?_⟩
  · intro h0
    rw [find_closest_lob_indexes, dif_pos hirow, h0]
    rfl
  · intro h0
    subst h0
    rw [find_closest_lob_indexes, dif_pos hirow]
    cases (df_h.get ⟨irow, hirow⟩).hedge_time <;> simp [windowBounds]
  · by_cases hg : (hasExectype = true ∧ ¬(e.EXECTYPE = some 1 ∨ e.EXECTYPE = some 2))
    · rw [processEvent, if_pos hg]
      rfl
    · rw [processEvent, if_neg hg, ht]
      rfl
  · rw [runOutcomes_append]
    rfl

/-- Witness for C7: a NaT-timestamped event between two normal events. -/
theorem c7_locator_errors_witness :
    find_closest_lob_indexes [evNaT] [snapA] 0 nsPerSec = (-1, -1) ∧
    recordOf (processEvent true [snapA] nsPerSec 1 none evNaT) = none ∧
    runOutcomes true [snapA] nsPerSec 1 none ([evBuy] ++ evNaT :: [evBuy]) =
      runOutcomes true [snapA] nsPerSec 1 none [evBuy] ++
        processEvent true [snapA] nsPerSec 1 (lastPrev none [evBuy]) evNaT ::
          runOutcomes true [snapA] nsPerSec 1 (some evNaT) [evBuy] := by
  have h := c7_locator_errors true [snapA] nsPerSec 1 [evNaT] 0 (by decide) none
    [evBuy] [evBuy] evNaT (by decide)
  exact ⟨h.1 (by decide), h.2.2.1, h.2.2.2⟩

/-- C8 (amended): the engine reports its counters and match rate only when at
least one match record exists — a run with no match reports nothing, in
particular no rate of 0 when attempted = 0; whenever a report is produced,
its fields equal the run counters, the attempted count is then necessarily
positive, and the rate equals matched / attempted × 100. -/
theorem c8_report_amended (hasExectype : Bool) (df_h : List HedgeEvent)
    (snaps : List LobSnapshot) (tThresholdNs : Int) (tick : ℚ) :
    (runReport hasExectype df_h snaps tThresholdNs tick = none ↔
       (match_hedges_to_lob hasExectype df_h snaps tThresholdNs tick).records = []) ∧
    (∀ rep, runReport hasExectype df_h snaps tThresholdNs tick = some rep →
       rep.attempted =
         (match_hedges_to_lob hasExectype df_h snaps tThresholdNs tick).num_input_hedge_fill_events ∧
       rep.matchedTotal =
         (match_hedges_to_lob hasExectype df_h snaps tThresholdNs tick).records.length ∧
       rep.exactMatches =
         (match_hedges_to_lob hasExectype df_h snaps tThresholdNs tick).num_exact_price_matches ∧
       rep.fuzzyMatches =
         (match_hedges_to_lob hasExectype df_h snaps tThresholdNs tick).num_fuzzy_price_matches ∧
       0 < rep.attempted ∧
       rep.matchRate = some ((rep.matchedTotal : ℚ) / (rep.attempted : ℚ) * 100)) := by
  by_cases hrec : (match_hedges_to_lob hasExectype df_h snaps tThresholdNs tick).records = []
  · constructor
    · rw [runReport, if_pos hrec]
      exact iff_of_true rfl hrec
    · intro rep h
      rw [runReport, if_pos hrec] at h
      exact Option.noConfusion h
  · have hpos := attempted_pos_of_records_ne hrec
    constructor
    · rw [runReport, if_neg hrec]
      exact iff_of_false (fun hc => Option.noConfusion hc) hrec
    · intro rep h
      rw [runReport, if_neg hrec] at h
      injection h with h2
      subst h2
      refine ⟨rfl, rfl, rfl, rfl, hpos, ?_⟩
      dsimp only
      rw [if_pos hpos]

/-- Counterexample to C8 as stated: a run that attempts one fill event and
matches nothing reports neither its counts nor any match rate. -/
theorem c8_counterexample :
    (match_hedges_to_lob true [evNoMatch] [snapA, snapB] nsPerSec 1).num_input_hedge_fill_events
      = 1 ∧
    runReport true [evNoMatch] [snapA, snapB] nsPerSec 1 = none := by
  have hrun : match_hedges_to_lob true [evNoMatch] [snapA, snapB] nsPerSec 1 = ⟨[], 1, 0, 0⟩ := by
    norm_num [match_hedges_to_lob_cons, runOutcomes, recordOf, isExactMatch, isFuzzyMatch,
      processEvent, windowBounds_some_cons, searchsortedLeft, searchsortedRight, candidateWindow,
      windowStart, exactSearch, fuzzySearch, searchLevelList, findFirstIdx, exactAccept,
      fuzzyAccept, sidePriceAt, sideSizeAt, askPriceAt, askSizeAt, bidPriceAt, bidSizeAt,
      fillSizeOf, fallbackFillSize, evNoMatch, evBuy, snapA, snapB, eps, nsPerSec, List.range']
    all_goals decide
  constructor
  · rw [hrun]
  · rw [runReport, hrun]
    simp

/-- Witness for the amended C8 at a run with one exact match: report
`⟨1, 1, 1, 0, 100⟩`. -/
theorem c8_report_amended_witness :
    (⟨1, 1, 1, 0, some 100⟩ : MatchingReport).attempted =
      (match_hedges_to_lob true [evBuy] [snapA, snapB] nsPerSec 1).num_input_hedge_fill_events ∧
    0 < (⟨1, 1, 1, 0, some 100⟩ : MatchingReport).attempted ∧
    (⟨1, 1, 1, 0, some 100⟩ : MatchingReport).matchRate =
      some (((⟨1, 1, 1, 0, some 100⟩ : MatchingReport).matchedTotal : ℚ) /
        ((⟨1, 1, 1, 0, some 100⟩ : MatchingReport).attempted : ℚ) * 100) := by
  have hrun : match_hedges_to_lob true [evBuy] [snapA, snapB] nsPerSec 1
      = ⟨[recExact], 1, 1, 0⟩ := by
    norm_num [match_hedges_to_lob_cons, runOutcomes, recordOf, isExactMatch, isFuzzyMatch,
      processEvent, windowBounds_some_cons, searchsortedLeft, searchsortedRight, candidateWindow,
      windowStart, exactSearch, fuzzySearch, searchLevelList, findFirstIdx, exactAccept,
      fuzzyAccept, sidePriceAt, sideSizeAt, askPriceAt, askSizeAt, bidPriceAt, bidSizeAt,
      fillSizeOf, fallbackFillSize, evBuy, snapA, snapB, recExact, eps, nsPerSec, List.range']
    all_goals decide
  have h := (c8_report_amended true [evBuy] [snapA, snapB] nsPerSec 1).2 ⟨1, 1, 1, 0, some 100⟩
    (by rw [runReport, hrun]; norm_num)
  exact ⟨h.1, h.2.2.2.2.1, h.2.2.2.2.2⟩

theorem isMonotonicIncreasing_of_sorted :
    ∀ {l : List LobSnapshot}, List.Sorted timeLe l → isMonotonicIncreasing l = true
  | [], _ => rfl
  | [_], _ => rfl
  | _ :: b :: rest, h => by
    rw [List.sorted_cons] at h
    simp only [isMonotonicIncreasing, Bool.and_eq_true, decide_eq_true_eq]
    exact ⟨h.1 b (by simp), isMonotonicIncreasing_of_sorted h.2⟩

/-- C9 (amended): the prepared snapshot sequence is sorted non-decreasing by
timestamp, but it is a permutation of the input — rows with duplicate
timestamps are all retained. The de-duplication branch runs only when the
sorted column fails the non-strict pandas monotonic check, which a sorted column
of comparable timestamps always passes, so the branch is never taken. -/
theorem c9_lob_prepare_amended (rows : List LobSnapshot) :
    filter_and_prepare_lob_data rows = sortByTime rows ∧
    List.Sorted timeLe (filter_and_prepare_lob_data rows) ∧
    (filter_and_prepare_lob_data rows).Perm rows := by
  have hs : List.Sorted timeLe (sortByTime rows) := List.sorted_insertionSort timeLe rows
  have hm := isMonotonicIncreasing_of_sorted hs
  have he : filter_and_prepare_lob_data rows = sortByTime rows := by
    rw [filter_and_prepare_lob_data, if_pos hm]
  exact ⟨he, he ▸ hs, he ▸ List.perm_insertionSort timeLe rows⟩

/-- Counterexample to C9 as stated: two distinct rows sharing timestamp 5
both survive preparation — the output is not deduplicated on timestamp. -/
theorem c9_counterexample :
    (filter_and_prepare_lob_data [rowD1, rowD2]).map LobSnapshot.lob_time = [5, 5] ∧
    rowD1 ≠ rowD2 := by
  constructor
  · rfl
  · decide

/-- C10: every event passing the fill-type filter increments the attempted
counter — with the EXECTYPE column present, exactly the events with EXECTYPE
1 or 2; with it absent, every event — regardless of whether the event is
later skipped for its window, side, fill size or price, since the only
outcome that escapes the counter is the fill-type skip itself. -/
theorem c10_attempted_counter (hasExectype : Bool) (df_h : List HedgeEvent)
    (snaps : List LobSnapshot) (tThresholdNs : Int) (tick : ℚ)
    (h1 : df_h ≠ []) (h2 : snaps ≠ []) :
    (match_hedges_to_lob hasExectype df_h snaps tThresholdNs tick).num_input_hedge_fill_events =
      (if hasExectype then
        (df_h.filter (fun e => decide (e.EXECTYPE = some 1 ∨ e.EXECTYPE = some 2))).length
      else df_h.length) ∧
    (∀ (prev : Option HedgeEvent) (e : HedgeEvent),
       processEvent hasExectype snaps tThresholdNs tick prev e ≠ Outcome.notFill ↔
         (hasExectype = false ∨ e.EXECTYPE = some 1 ∨ e.EXECTYPE = some 2)) := by
  have hiff : ∀ (prev : Option HedgeEvent) (e : HedgeEvent),
      processEvent hasExectype snaps tThresholdNs tick prev e ≠ Outcome.notFill ↔
        (hasExectype = false ∨ e.EXECTYPE = some 1 ∨ e.EXECTYPE = some 2) := by
    intro prev e
    rw [Ne, processEvent_eq_notFill_iff]
    cases hasExectype
    · simp
    · simp [or_iff_not_imp_left]
  refine ⟨?_, hiff⟩
  have hc : ¬(df_h = [] ∨ snaps = []) := by
    intro hor
    rcases hor with hor | hor
    · exact h1 hor
    · exact h2 hor
  rw [match_hedges_to_lob, if_neg hc]
  dsimp only
  rw [runOutcomes_attempted]
  cases hasExectype
  · simp
  · simp

/-- Witness for C10: a run of one fill and one cancel counts 1 attempted. -/
theorem c10_attempted_counter_witness :
    (match_hedges_to_lob true [evBuy, evCancel] [snapA] nsPerSec 1).num_input_hedge_fill_events =
      (if true then
        (([evBuy, evCancel] : List HedgeEvent).filter
          (fun e => decide (e.EXECTYPE = some 1 ∨ e.EXECTYPE = some 2))).length
      else ([evBuy, evCancel] : List HedgeEvent).length) :=
  (c10_attempted_counter true [evBuy, evCancel] [snapA] nsPerSec 1 (by decide) (by decide)).1

end FuturesMatching
